import Mathlib

/-!
Verification development for the `memoryhashmap` Go package.

The package provides two string-keyed containers:

* `MemoryHashMap` (src/memory_hash_map.go): a plain in-memory
  `map[string]BaseObjectInterface` with `Count`, `GetList`, `FindByKey`,
  `AddUpdateObject`, `DeleteObject`.
* `PersistentMemoryHashMap` (src/persistent_memory_hash_map.go): the same
  container coupled to an on-disk Bolt key/value store.  Every mutation is
  applied to the in-memory map first and then, when the
  `is_persistence_available` latch is `true`, mirrored to the backend via
  the sequence directory-check / open / ensure-bucket / (marshal) /
  put-or-delete.  A failure of any backend step sets the latch `false`;
  a `json.Marshal` failure merely returns without touching the latch.

Modelling choices:

* A Go `map[string]T` is modelled as an association list
  `List (String × T)` with the operations `GoMap.find` (indexing),
  `GoMap.insert` (`m[k] = v`), `GoMap.erase` (`delete(m, k)`); `len` is
  `List.length`.
* A Go interface value of type `BaseObjectInterface` may be `nil`, so the
  stored value type is `Option Obj` for an abstract payload type `Obj`;
  `none` is Go `nil`.
* The Bolt backend is external to the repository.  It is modelled by a
  `BackendState` (does the db directory exist, contents of the single
  bucket named `default`) plus per-call fault injection (`Faults`) for the
  steps that can fail: `bolt.Open`, `CreateBucketIfNotExists`, and the
  `Put`/`Delete` transaction.  A failed Bolt `Update` transaction is
  rolled back, so a failed put/delete leaves the stored bucket unchanged.
* `json.Marshal` is an abstract function `enc : Option Obj → Option Bytes`
  (`none` = marshal error); the reflection-driven
  `UnmarshalBaseObjectJSON` capability is an abstract function
  `dec : Bytes → String × Obj` returning the error message (empty string
  = success, exactly the `len(message) != 0` test in the source) and the
  populated object.
* The Go methods return no error value; correspondingly the model
  functions return only the new states.
-/

abbrev Bytes := List Nat

namespace GoMap

/-- Go map indexing `v, ok := m[key]`: `some` iff the key is present. -/
def find {α : Type} : List (String × α) → String → Option α
  | [], _ => none
  | p :: rest, key => if p.1 = key then some p.2 else find rest key

/-- Go map membership test (`_, ok := m[key]`). -/
def containsKey {α : Type} : List (String × α) → String → Bool
  | [], _ => false
  | p :: rest, key => if p.1 = key then true else containsKey rest key

/-- Overwrite the value stored under a present key. -/
def replaceEntry {α : Type} : List (String × α) → String → α →
    List (String × α)
  | [], _, _ => []
  | p :: rest, key, v =>
    if p.1 = key then (key, v) :: replaceEntry rest key v
    else p :: replaceEntry rest key v

/-- Go map assignment `m[key] = v`: replace the value if the key is
present, append a fresh entry otherwise. -/
def insert {α : Type} (m : List (String × α)) (key : String) (v : α) :
    List (String × α) :=
  if containsKey m key then replaceEntry m key v else m ++ [(key, v)]

/-- Go `delete(m, key)`: remove the entry if present, no-op otherwise. -/
def erase {α : Type} : List (String × α) → String → List (String × α)
  | [], _ => []
  | p :: rest, key =>
    if p.1 = key then erase rest key else p :: erase rest key

theorem find_eq_none_of_containsKey_eq_false {α : Type}
    {m : List (String × α)} {key : String}
    (h : containsKey m key = false) : find m key = none := by
  induction m with
  | nil => rfl
  | cons p rest ih =>
    by_cases hk : p.1 = key
    · simp [containsKey, hk] at h
    · simp only [containsKey, hk, if_false] at h
      simp [find, hk, ih h]

theorem containsKey_eq_false_of_find_eq_none {α : Type}
    {m : List (String × α)} {key : String}
    (h : find m key = none) : containsKey m key = false := by
  induction m with
  | nil => rfl
  | cons p rest ih =>
    by_cases hk : p.1 = key
    · simp [find, hk] at h
    · simp only [find, hk, if_false] at h
      simp [containsKey, hk, ih h]

theorem find_append {α : Type} (m l : List (String × α)) (key : String) :
    find (m ++ l) key =
      match find m key with
      | some v => some v
      | none => find l key := by
  induction m with
  | nil => simp [find]
  | cons p rest ih =>
    by_cases hk : p.1 = key
    · simp [find, hk]
    · simp [find, hk, ih]

theorem find_replaceEntry_self {α : Type} {m : List (String × α)}
    {key : String} (v : α) (h : containsKey m key = true) :
    find (replaceEntry m key v) key = some v := by
  induction m with
  | nil => simp [containsKey] at h
  | cons p rest ih =>
    by_cases hk : p.1 = key
    · simp [replaceEntry, find, hk]
    · simp only [containsKey, hk, if_false] at h
      simp [replaceEntry, find, hk, ih h]

theorem find_replaceEntry_ne {α : Type} (m : List (String × α))
    {key key' : String} (v : α) (h : key' ≠ key) :
    find (replaceEntry m key v) key' = find m key' := by
  induction m with
  | nil => rfl
  | cons p rest ih =>
    by_cases hk : p.1 = key
    · have hne : ¬ key = key' := fun hh => h hh.symm
      have hp' : ¬ p.1 = key' := fun hh => h (by rw [← hh, hk])
      simp only [replaceEntry, if_pos hk, find, hne, hp', if_false]
      exact ih
    · simp only [replaceEntry, if_neg hk, find]
      by_cases hk' : p.1 = key'
      · simp [hk']
      · simp [hk', ih]

theorem length_replaceEntry {α : Type} (m : List (String × α))
    (key : String) (v : α) :
    (replaceEntry m key v).length = m.length := by
  induction m with
  | nil => rfl
  | cons p rest ih =>
    by_cases hk : p.1 = key
    · simp [replaceEntry, hk, ih]
    · simp [replaceEntry, hk, ih]

theorem find_insert_self {α : Type} (m : List (String × α))
    (key : String) (v : α) : find (insert m key v) key = some v := by
  unfold insert
  by_cases hc : containsKey m key
  · simp only [hc, if_true]
    exact find_replaceEntry_self v hc
  · simp only [hc, Bool.false_eq_true, if_false]
    rw [find_append]
    rw [find_eq_none_of_containsKey_eq_false (by simpa using hc)]
    simp [find]

theorem find_insert_ne {α : Type} (m : List (String × α))
    {key key' : String} (v : α) (h : key' ≠ key) :
    find (insert m key v) key' = find m key' := by
  unfold insert
  by_cases hc : containsKey m key
  · simp only [hc, if_true]
    exact find_replaceEntry_ne m v h
  · simp only [hc, Bool.false_eq_true, if_false]
    rw [find_append]
    have hone : find [(key, v)] key' = none := by
      have hne : key ≠ key' := fun hh => h hh.symm
      simp [find, hne]
    rw [hone]
    cases find m key' <;> simp

theorem length_insert_of_absent {α : Type} {m : List (String × α)}
    {key : String} (v : α) (h : find m key = none) :
    (insert m key v).length = m.length + 1 := by
  unfold insert
  rw [if_neg]
  · simp
  · simp [containsKey_eq_false_of_find_eq_none h]

theorem length_insert_of_present {α : Type} {m : List (String × α)}
    {key : String} (v : α) (h : find m key ≠ none) :
    (insert m key v).length = m.length := by
  unfold insert
  rw [if_pos]
  · exact length_replaceEntry m key v
  · by_cases hc : containsKey m key
    · exact hc
    · exact absurd (find_eq_none_of_containsKey_eq_false
        (by simpa using hc)) h

theorem find_erase_self {α : Type} (m : List (String × α)) (key : String) :
    find (erase m key) key = none := by
  induction m with
  | nil => rfl
  | cons p rest ih =>
    by_cases hk : p.1 = key
    · simpa [erase, hk] using ih
    · simpa [erase, hk, find] using ih

theorem find_erase_ne {α : Type} (m : List (String × α))
    {key key' : String} (h : key' ≠ key) :
    find (erase m key) key' = find m key' := by
  induction m with
  | nil => rfl
  | cons p rest ih =>
    by_cases hk : p.1 = key
    · have hp' : ¬ p.1 = key' := fun hh => h (by rw [← hh, hk])
      simp only [erase, if_pos hk, find, hp', if_false]
      exact ih
    · simp only [erase, if_neg hk, find]
      by_cases hk' : p.1 = key'
      · simp [hk']
      · simp [hk', ih]

theorem erase_of_absent {α : Type} {m : List (String × α)} {key : String}
    (h : find m key = none) : erase m key = m := by
  induction m with
  | nil => rfl
  | cons p rest ih =>
    by_cases hk : p.1 = key
    · simp [find, hk] at h
    · simp only [find, hk, if_false] at h
      simp [erase, hk, ih h]

end GoMap

/-- In-memory hash map (src/memory_hash_map.go).  The field `list` is the
Go `map[string]BaseObjectInterface`; a stored value is `none` when the Go
interface value is `nil`, for an abstract payload type `Obj`. -/
structure MemoryHashMap (Obj : Type) where
  list : List (String × Option Obj)
deriving DecidableEq

namespace MemoryHashMap

/-- Method `Count` (src/memory_hash_map.go): `len(mhm.list)`. -/
def Count {Obj : Type} (mhm : MemoryHashMap Obj) : Nat :=
  mhm.list.length

/-- Method `GetList`: returns the underlying map. -/
def GetList {Obj : Type} (mhm : MemoryHashMap Obj) :
    List (String × Option Obj) :=
  mhm.list

/-- Method `FindByKey`: `value, ok := mhm.list[key]`, with `value = nil` when `ok` is false.
Returns the stored (possibly `nil`) value, and `nil` (`none`) when the
key is absent. -/
def FindByKey {Obj : Type} (mhm : MemoryHashMap Obj) (key : String) :
    Option Obj :=
  match GoMap.find mhm.list key with
  | some value => value
  | none => none

/-- Method `AddUpdateObject`: `mhm.list[key] = value`. -/
def AddUpdateObject {Obj : Type} (mhm : MemoryHashMap Obj) (key : String)
    (value : Option Obj) : MemoryHashMap Obj :=
  ⟨GoMap.insert mhm.list key value⟩

/-- Method `DeleteObject`: `delete(mhm.list, key)`. -/
def DeleteObject {Obj : Type} (mhm : MemoryHashMap Obj) (key : String) :
    MemoryHashMap Obj :=
  ⟨GoMap.erase mhm.list key⟩

end MemoryHashMap

/-- Constructor `CreateMemoryHashMap`: fresh empty map. -/
def CreateMemoryHashMap (Obj : Type) : MemoryHashMap Obj :=
  ⟨[]⟩

/-- State of the external Bolt backend as this package observes it:
whether the db-file directory exists (`os.Stat` / `os.IsNotExist`) and
the contents of the single bucket named `default`. -/
structure BackendState where
  dirExists : Bool
  store : List (String × Bytes)
deriving DecidableEq

/-- Per-call fault injection for the backend steps of one mutation:
`bolt.Open` failure, `CreateBucketIfNotExists` failure, and failure of
the `Put`/`Delete` transaction (a failed Bolt `Update` is rolled back,
so the bucket is unchanged in that case). -/
structure Faults where
  openFail : Bool
  bucketFail : Bool
  opFail : Bool
deriving DecidableEq

/-- Persistent map (src/persistent_memory_hash_map.go).  The Go struct
also stores `objtype`, `dbfolder` and `dbfile`; the first is consumed
only at load time (through the `dec` capability below) and the path
fields only select the backend, which the model passes explicitly as a
`BackendState`. -/
structure PersistentMemoryHashMap (Obj : Type) where
  memory_map : MemoryHashMap Obj
  is_persistence_available : Bool
deriving DecidableEq

namespace PersistentMemoryHashMap

/-- Method `Count`: `len(pmhm.memory_map.list)`. -/
def Count {Obj : Type} (pmhm : PersistentMemoryHashMap Obj) : Nat :=
  pmhm.memory_map.list.length

/-- Method `FindByKey`: delegates to the in-memory map, never touches the
backend. -/
def FindByKey {Obj : Type} (pmhm : PersistentMemoryHashMap Obj)
    (key : String) : Option Obj :=
  pmhm.memory_map.FindByKey key

/-- Method `AddUpdateObject` (src/persistent_memory_hash_map.go lines 70-130).
The in-memory map is updated first, unconditionally.  When the latch
`is_persistence_available` is `true` the call then runs the backend
sequence: directory check, `bolt.Open`, `CreateBucketIfNotExists`,
`json.Marshal` (`enc`), `Put`.  Each backend failure sets the latch
`false` and returns; a `json.Marshal` failure returns without touching
the latch.  The Go method returns nothing, so the model returns only the
updated map and backend states. -/
def AddUpdateObject {Obj : Type} (enc : Option Obj → Option Bytes)
    (pmhm : PersistentMemoryHashMap Obj) (bs : BackendState) (f : Faults)
    (key : String) (value : Option Obj) :
    PersistentMemoryHashMap Obj × BackendState :=
  let mm := pmhm.memory_map.AddUpdateObject key value
  if pmhm.is_persistence_available then
    if !bs.dirExists then (⟨mm, false⟩, bs)
    else if f.openFail then (⟨mm, false⟩, bs)
    else if f.bucketFail then (⟨mm, false⟩, bs)
    else
      match enc value with
      | none => (⟨mm, pmhm.is_persistence_available⟩, bs)
      | some encoded =>
        if f.opFail then (⟨mm, false⟩, bs)
        else (⟨mm, pmhm.is_persistence_available⟩,
              ⟨bs.dirExists, GoMap.insert bs.store key encoded⟩)
  else (⟨mm, pmhm.is_persistence_available⟩, bs)

/-- Method `DeleteObject` (src/persistent_memory_hash_map.go lines 134-186).
Identical control flow to `AddUpdateObject` without the marshal step;
the backend operation is a bucket `Delete`. -/
def DeleteObject {Obj : Type} (pmhm : PersistentMemoryHashMap Obj)
    (bs : BackendState) (f : Faults) (key : String) :
    PersistentMemoryHashMap Obj × BackendState :=
  let mm := pmhm.memory_map.DeleteObject key
  if pmhm.is_persistence_available then
    if !bs.dirExists then (⟨mm, false⟩, bs)
    else if f.openFail then (⟨mm, false⟩, bs)
    else if f.bucketFail then (⟨mm, false⟩, bs)
    else if f.opFail then (⟨mm, false⟩, bs)
    else (⟨mm, pmhm.is_persistence_available⟩,
          ⟨bs.dirExists, GoMap.erase bs.store key⟩)
  else (⟨mm, pmhm.is_persistence_available⟩, bs)

end PersistentMemoryHashMap

/-- The error value returned by the constructor
`CreatePersistentMemoryHashMap`; `none` models a `nil` Go error. -/
inductive CreateErr where
  | dirMissing
  | openFail
  | bucketFail
deriving DecidableEq

/-- The record-loading loop of the constructor: `bucket.ForEach` over the
stored records in order.  `dec` models the reflection-driven call of
`UnmarshalBaseObjectJSON`, returning the error-message string and the
populated object.  When `len(message) != 0` the closure returns an
error, which makes `ForEach` stop at that record — but the source
discards the return value of `bucket.ForEach`, so iteration merely
stops: records decoded before the failure stay in the map, later records
are skipped, and no error reaches the `db.View` caller. -/
def loadRecords {Obj : Type} (dec : Bytes → String × Obj) :
    List (String × Bytes) → MemoryHashMap Obj → MemoryHashMap Obj
  | [], mm => mm
  | (k, v) :: rest, mm =>
    let res := dec v
    if res.1.length ≠ 0 then mm
    else loadRecords dec rest (mm.AddUpdateObject k (some res.2))

/-- Constructor `CreatePersistentMemoryHashMap` (src/persistent_memory_hash_map.go
lines 196-266): directory check, `bolt.Open`, `CreateBucketIfNotExists`,
then the `db.View` load.  Each failing step returns the
incompletely initialised instance (always usable in memory) with the latch
`false` and a non-nil error.  Because the `ForEach` error is discarded
(see `loadRecords`), the load step itself can no longer fail, so the
constructor then sets the latch `true` and returns a `nil` error. -/
def CreatePersistentMemoryHashMap {Obj : Type}
    (dec : Bytes → String × Obj) (bs : BackendState) (f : Faults) :
    PersistentMemoryHashMap Obj × Option CreateErr :=
  if !bs.dirExists then
    (⟨CreateMemoryHashMap Obj, false⟩, some CreateErr.dirMissing)
  else if f.openFail then
    (⟨CreateMemoryHashMap Obj, false⟩, some CreateErr.openFail)
  else if f.bucketFail then
    (⟨CreateMemoryHashMap Obj, false⟩, some CreateErr.bucketFail)
  else
    (⟨loadRecords dec bs.store (CreateMemoryHashMap Obj), true⟩, none)

/-- One mutation call on a `PersistentMemoryHashMap`, with its injected
backend faults. -/
inductive Op (Obj : Type) where
  | add (f : Faults) (key : String) (value : Option Obj)
  | del (f : Faults) (key : String)

/-- Run one mutation against the pair (map instance, backend). -/
def applyOp {Obj : Type} (enc : Option Obj → Option Bytes)
    (s : PersistentMemoryHashMap Obj × BackendState) :
    Op Obj → PersistentMemoryHashMap Obj × BackendState
  | Op.add f key value =>
    PersistentMemoryHashMap.AddUpdateObject enc s.1 s.2 f key value
  | Op.del f key =>
    PersistentMemoryHashMap.DeleteObject s.1 s.2 f key

/-- Run a sequence of mutations. -/
def applyOps {Obj : Type} (enc : Option Obj → Option Bytes)
    (s : PersistentMemoryHashMap Obj × BackendState) (ops : List (Op Obj)) :
    PersistentMemoryHashMap Obj × BackendState :=
  ops.foldl (applyOp enc) s

/-- The purely in-memory effect of a mutation, ignoring the backend. -/
def memApply {Obj : Type} (mm : MemoryHashMap Obj) :
    Op Obj → MemoryHashMap Obj
  | Op.add _ key value => mm.AddUpdateObject key value
  | Op.del _ key => mm.DeleteObject key

/-- The backend bucket contains exactly the key/encoded-value pairs of
the in-memory container: every container key carries a value whose
encoding succeeds and is stored under that key, and no other key is
stored. -/
def mirrors {Obj : Type} (enc : Option Obj → Option Bytes)
    (store : List (String × Bytes)) (mm : MemoryHashMap Obj) : Prop :=
  ∀ key,
    match GoMap.find mm.list key with
    | none => GoMap.find store key = none
    | some v => ∃ b, enc v = some b ∧ GoMap.find store key = some b

/-- A mutation whose value encodes successfully (deletions carry no
value). -/
def encOk {Obj : Type} (enc : Option Obj → Option Bytes) : Op Obj → Prop
  | Op.add _ _ value => (enc value).isSome = true
  | Op.del _ _ => True

/-- Concrete `json.Marshal` stand-in on `Obj := Nat` used by the closed
instances below: `some 0` is the one unencodable value (in Go, e.g. a
struct containing a channel), `nil` encodes (as `null` does). -/
def encN : Option Nat → Option Bytes
  | none => some []
  | some 0 => none
  | some (n + 1) => some [n + 1]

/-- Concrete `UnmarshalBaseObjectJSON` stand-in on `Obj := Nat`:
decoding `[]` fails with a non-empty message, anything else succeeds. -/
def decN : Bytes → String × Nat
  | [] => ("bad record", 0)
  | n :: _ => ("", n)

namespace PersistentMemoryHashMap

theorem addUpdate_memory_map {Obj : Type} (enc : Option Obj → Option Bytes)
    (pmhm : PersistentMemoryHashMap Obj) (bs : BackendState) (f : Faults)
    (key : String) (value : Option Obj) :
    (AddUpdateObject enc pmhm bs f key value).1.memory_map
      = pmhm.memory_map.AddUpdateObject key value := by
  unfold AddUpdateObject
  repeat' split
  all_goals rfl

theorem delete_memory_map {Obj : Type}
    (pmhm : PersistentMemoryHashMap Obj) (bs : BackendState) (f : Faults)
    (key : String) :
    (DeleteObject pmhm bs f key).1.memory_map
      = pmhm.memory_map.DeleteObject key := by
  unfold DeleteObject
  repeat' split
  all_goals rfl

theorem addUpdate_avail_false {Obj : Type} (enc : Option Obj → Option Bytes)
    {pmhm : PersistentMemoryHashMap Obj} (bs : BackendState) (f : Faults)
    (key : String) (value : Option Obj)
    (h : pmhm.is_persistence_available = false) :
    AddUpdateObject enc pmhm bs f key value
      = (⟨pmhm.memory_map.AddUpdateObject key value, false⟩, bs) := by
  simp [AddUpdateObject, h]

theorem delete_avail_false {Obj : Type}
    {pmhm : PersistentMemoryHashMap Obj} (bs : BackendState) (f : Faults)
    (key : String) (h : pmhm.is_persistence_available = false) :
    DeleteObject pmhm bs f key
      = (⟨pmhm.memory_map.DeleteObject key, false⟩, bs) := by
  simp [DeleteObject, h]

end PersistentMemoryHashMap

theorem applyOp_avail_false {Obj : Type} (enc : Option Obj → Option Bytes)
    (s : PersistentMemoryHashMap Obj × BackendState) (op : Op Obj)
    (h : s.1.is_persistence_available = false) :
    applyOp enc s op = (⟨memApply s.1.memory_map op, false⟩, s.2) := by
  cases op with
  | add f key value =>
    simpa [applyOp, memApply] using
      PersistentMemoryHashMap.addUpdate_avail_false enc s.2 f key value h
  | del f key =>
    simpa [applyOp, memApply] using
      PersistentMemoryHashMap.delete_avail_false s.2 f key h

theorem addUpdate_backend_failure {Obj : Type} (enc : Option Obj → Option Bytes)
    {pmhm : PersistentMemoryHashMap Obj} {bs : BackendState} {f : Faults}
    (key : String) (value : Option Obj)
    (havail : pmhm.is_persistence_available = true)
    (hfail : bs.dirExists = false ∨ f.openFail = true ∨ f.bucketFail = true ∨
      (f.opFail = true ∧ (enc value).isSome = true)) :
    PersistentMemoryHashMap.AddUpdateObject enc pmhm bs f key value
      = (⟨pmhm.memory_map.AddUpdateObject key value, false⟩, bs) := by
  by_cases hd : bs.dirExists
  · by_cases ho : f.openFail
    · simp [PersistentMemoryHashMap.AddUpdateObject, havail, hd, ho]
    · by_cases hb : f.bucketFail
      · simp [PersistentMemoryHashMap.AddUpdateObject, havail, hd, ho, hb]
      · rcases hfail with h1 | h2 | h3 | ⟨h4, h5⟩
        · rw [h1] at hd
          exact absurd hd Bool.false_ne_true
        · exact absurd h2 ho
        · exact absurd h3 hb
        · obtain ⟨b, hcd⟩ := Option.isSome_iff_exists.mp h5
          simp [PersistentMemoryHashMap.AddUpdateObject, havail, hd, ho,
            hb, hcd, h4]
  · have hd' : bs.dirExists = false := by
      cases hdd : bs.dirExists
      · rfl
      · exact absurd hdd hd
    simp [PersistentMemoryHashMap.AddUpdateObject, havail, hd']

theorem delete_backend_failure {Obj : Type}
    {pmhm : PersistentMemoryHashMap Obj} {bs : BackendState} {f : Faults}
    (key : String)
    (havail : pmhm.is_persistence_available = true)
    (hfail : bs.dirExists = false ∨ f.openFail = true ∨ f.bucketFail = true ∨
      f.opFail = true) :
    PersistentMemoryHashMap.DeleteObject pmhm bs f key
      = (⟨pmhm.memory_map.DeleteObject key, false⟩, bs) := by
  by_cases hd : bs.dirExists
  · by_cases ho : f.openFail
    · simp [PersistentMemoryHashMap.DeleteObject, havail, hd, ho]
    · by_cases hb : f.bucketFail
      · simp [PersistentMemoryHashMap.DeleteObject, havail, hd, ho, hb]
      · rcases hfail with h1 | h2 | h3 | h4
        · rw [h1] at hd
          exact absurd hd Bool.false_ne_true
        · exact absurd h2 ho
        · exact absurd h3 hb
        · simp [PersistentMemoryHashMap.DeleteObject, havail, hd, ho,
            hb, h4]
  · have hd' : bs.dirExists = false := by
      cases hdd : bs.dirExists
      · rfl
      · exact absurd hdd hd
    simp [PersistentMemoryHashMap.DeleteObject, havail, hd']

/-- Claim C1: once `is_persistence_available` is `false`, any sequence of
`AddUpdateObject`/`DeleteObject` calls leaves it `false`, never touches
the backend (the backend state is returned unchanged, whatever faults
are injected), and mutates only the in-memory container. -/
theorem C1_latch_monotone {Obj : Type} (enc : Option Obj → Option Bytes)
    (pmhm : PersistentMemoryHashMap Obj) (bs : BackendState)
    (ops : List (Op Obj)) (h : pmhm.is_persistence_available = false) :
    applyOps enc (pmhm, bs) ops
      = (⟨ops.foldl memApply pmhm.memory_map, false⟩, bs) := by
  induction ops generalizing pmhm with
  | nil =>
    cases pmhm with
    | mk mm avail =>
      simp only at h
      simp [applyOps, h]
  | cons op rest ih =>
    have hstep := applyOp_avail_false enc (pmhm, bs) op h
    simp only [applyOps, List.foldl_cons] at *
    rw [hstep]
    exact ih ⟨memApply pmhm.memory_map op, false⟩ rfl

/-- Witness for C1 at a concrete instance, mutation sequence and fault
assignment. -/
theorem C1_latch_monotone_witness :
    (⟨⟨[("b", some 5)]⟩, false⟩ :
        PersistentMemoryHashMap Nat).is_persistence_available = false ∧
    applyOps encN (⟨⟨[("b", some 5)]⟩, false⟩, ⟨true, [("b", [5])]⟩)
        [Op.add ⟨false, false, true⟩ "a" (some 1),
         Op.del ⟨true, false, false⟩ "b"]
      = (⟨[Op.add ⟨false, false, true⟩ "a" (some 1),
           Op.del ⟨true, false, false⟩ "b"].foldl memApply ⟨[("b", some 5)]⟩,
          false⟩, ⟨true, [("b", [5])]⟩) :=
  ⟨rfl, C1_latch_monotone encN ⟨⟨[("b", some 5)]⟩, false⟩ ⟨true, [("b", [5])]⟩
    [Op.add ⟨false, false, true⟩ "a" (some 1),
     Op.del ⟨true, false, false⟩ "b"] rfl⟩

/-- Claim C3: when a backend step (directory check, open, ensure-bucket,
or put) of `AddUpdateObject` fails, the caller sees no error (the Go
method returns nothing; the model returns only states), the in-memory
container holds the new value under the key after the call, and the
latch ends `false`; symmetrically, on a backend failure of
`DeleteObject` (directory check, open, ensure-bucket, or delete) the key
stays removed from the container and the latch ends `false`.  In both
cases the backend itself is left unchanged. -/
theorem C3_backend_failure_absorbed {Obj : Type}
    (enc : Option Obj → Option Bytes) (pmhm : PersistentMemoryHashMap Obj)
    (bs : BackendState) (f : Faults) (key : String) (value : Option Obj)
    (havail : pmhm.is_persistence_available = true) :
    ((bs.dirExists = false ∨ f.openFail = true ∨ f.bucketFail = true ∨
        (f.opFail = true ∧ (enc value).isSome = true)) →
      GoMap.find
          (PersistentMemoryHashMap.AddUpdateObject enc pmhm bs f key
            value).1.memory_map.list key = some value ∧
      (PersistentMemoryHashMap.AddUpdateObject enc pmhm bs f key
        value).1.is_persistence_available = false ∧
      (PersistentMemoryHashMap.AddUpdateObject enc pmhm bs f key
        value).2 = bs) ∧
    ((bs.dirExists = false ∨ f.openFail = true ∨ f.bucketFail = true ∨
        f.opFail = true) →
      GoMap.find
          (PersistentMemoryHashMap.DeleteObject pmhm bs f
            key).1.memory_map.list key = none ∧
      (PersistentMemoryHashMap.DeleteObject pmhm bs f
        key).1.is_persistence_available = false ∧
      (PersistentMemoryHashMap.DeleteObject pmhm bs f key).2 = bs) := by
  constructor
  · intro hfail
    rw [addUpdate_backend_failure enc key value havail hfail]
    refine ⟨?_, rfl, rfl⟩
    simp [MemoryHashMap.AddUpdateObject, GoMap.find_insert_self]
  · intro hfail
    rw [delete_backend_failure key havail hfail]
    refine ⟨?_, rfl, rfl⟩
    simp [MemoryHashMap.DeleteObject, GoMap.find_erase_self]

/-- Witness for C3: an instance with persistence available, an injected
open failure on both mutations. -/
theorem C3_backend_failure_absorbed_witness :
    GoMap.find
        (PersistentMemoryHashMap.AddUpdateObject encN ⟨⟨[]⟩, true⟩
          ⟨true, []⟩ ⟨true, false, false⟩ "a" (some 1)).1.memory_map.list
        "a" = some (some 1) ∧
    (PersistentMemoryHashMap.AddUpdateObject encN ⟨⟨[]⟩, true⟩ ⟨true, []⟩
      ⟨true, false, false⟩ "a" (some 1)).1.is_persistence_available
      = false ∧
    GoMap.find
        (PersistentMemoryHashMap.DeleteObject
          (⟨⟨[("b", some 2)]⟩, true⟩ : PersistentMemoryHashMap Nat)
          ⟨true, [("b", [2])]⟩ ⟨true, false, false⟩ "b").1.memory_map.list
        "b" = none := by
  refine ⟨?_, ?_, ?_⟩
  · exact ((C3_backend_failure_absorbed encN ⟨⟨[]⟩, true⟩ ⟨true, []⟩
      ⟨true, false, false⟩ "a" (some 1) rfl).1
      (Or.inr (Or.inl rfl))).1
  · exact ((C3_backend_failure_absorbed encN ⟨⟨[]⟩, true⟩ ⟨true, []⟩
      ⟨true, false, false⟩ "a" (some 1) rfl).1
      (Or.inr (Or.inl rfl))).2.1
  · exact ((C3_backend_failure_absorbed encN ⟨⟨[("b", some 2)]⟩, true⟩
      ⟨true, [("b", [2])]⟩ ⟨true, false, false⟩ "b" (some 0) rfl).2
      (Or.inr (Or.inl rfl))).1

/-- Claim C5: with persistence available and every backend step up to
the marshal succeeding, a `json.Marshal` failure (`enc value = none`)
aborts only the persistence attempt of that call: no `Put` is issued
(the backend state is returned unchanged), the latch stays `true`, and
the in-memory upsert is applied. -/
theorem C5_encode_failure_keeps_latch {Obj : Type}
    (enc : Option Obj → Option Bytes) (pmhm : PersistentMemoryHashMap Obj)
    (bs : BackendState) (f : Faults) (key : String) (value : Option Obj)
    (havail : pmhm.is_persistence_available = true)
    (hdir : bs.dirExists = true) (hopen : f.openFail = false)
    (hbucket : f.bucketFail = false) (henc : enc value = none) :
    PersistentMemoryHashMap.AddUpdateObject enc pmhm bs f key value
      = (⟨pmhm.memory_map.AddUpdateObject key value, true⟩, bs) ∧
    GoMap.find (PersistentMemoryHashMap.AddUpdateObject enc pmhm bs f key
      value).1.memory_map.list key = some value := by
  have heq : PersistentMemoryHashMap.AddUpdateObject enc pmhm bs f key value
      = (⟨pmhm.memory_map.AddUpdateObject key value, true⟩, bs) := by
    simp [PersistentMemoryHashMap.AddUpdateObject, havail, hdir, hopen,
      hbucket, henc]
  refine ⟨heq, ?_⟩
  rw [heq]
  simp [MemoryHashMap.AddUpdateObject, GoMap.find_insert_self]

/-- Witness for C5: `encN (some 0) = none` is the unencodable value. -/
theorem C5_encode_failure_keeps_latch_witness :
    PersistentMemoryHashMap.AddUpdateObject encN ⟨⟨[]⟩, true⟩ ⟨true, []⟩
        ⟨false, false, false⟩ "a" (some 0)
      = (⟨(⟨[]⟩ : MemoryHashMap Nat).AddUpdateObject "a" (some 0), true⟩,
         ⟨true, []⟩) :=
  (C5_encode_failure_keeps_latch encN ⟨⟨[]⟩, true⟩ ⟨true, []⟩
    ⟨false, false, false⟩ "a" (some 0) rfl rfl rfl rfl rfl).1

/-- Claim C2, behaviour of the code at the failing input.  The store
holds three records; the second fails to decode (`decN []` returns the
non-empty message `"bad record"`).  Because the source discards the
return value of `bucket.ForEach`, the decode failure does NOT abort the
whole load and does NOT flip the latch: the constructor returns with the
record before the failure loaded, the one after it skipped,
`is_persistence_available = true`, and a `nil` error — contradicting the
claim that any decode failure leaves the instance with persistence
disabled. -/
theorem C2_decode_failure_code_behavior :
    (decN []).1.length ≠ 0 ∧
    (CreatePersistentMemoryHashMap decN
        ⟨true, [("a", [7]), ("b", []), ("c", [9])]⟩ ⟨false, false, false⟩)
      = (⟨⟨[("a", some 7)]⟩, true⟩, none) := by
  constructor
  · decide
  · rfl

/-- Claim C6: the constructor always returns a usable instance together
with an error value; when the backend directory does not exist the
instance is empty (`Count = 0`), the error is non-nil, the latch is
`false`, and a subsequent `AddUpdateObject`/`FindByKey` round-trip works
purely in memory, whatever faults the backend would inject. -/
theorem C6_constructor_memory_only {Obj : Type}
    (dec : Bytes → String × Obj) (enc : Option Obj → Option Bytes)
    (bs : BackendState) (f f2 : Faults) (key : String) (value : Option Obj)
    (hdir : bs.dirExists = false) :
    (CreatePersistentMemoryHashMap dec bs f).1.Count = 0 ∧
    (CreatePersistentMemoryHashMap dec bs f).2 ≠ none ∧
    (CreatePersistentMemoryHashMap dec bs f).1.is_persistence_available
      = false ∧
    (PersistentMemoryHashMap.AddUpdateObject enc
        (CreatePersistentMemoryHashMap dec bs f).1 bs f2 key
        value).1.FindByKey key = value := by
  have hcreate : CreatePersistentMemoryHashMap dec bs f
      = (⟨CreateMemoryHashMap Obj, false⟩, some CreateErr.dirMissing) := by
    simp [CreatePersistentMemoryHashMap, hdir]
  rw [hcreate]
  refine ⟨rfl, by simp, rfl, ?_⟩
  rw [PersistentMemoryHashMap.FindByKey, PersistentMemoryHashMap.addUpdate_memory_map]
  rw [MemoryHashMap.FindByKey, MemoryHashMap.AddUpdateObject]
  simp [GoMap.find_insert_self]

/-- Witness for C6 over a missing directory and a concrete round-trip. -/
theorem C6_constructor_memory_only_witness :
    (CreatePersistentMemoryHashMap decN ⟨false, []⟩
      ⟨false, false, false⟩).1.Count = 0 ∧
    (CreatePersistentMemoryHashMap decN ⟨false, []⟩
      ⟨false, false, false⟩).2 ≠ none ∧
    (CreatePersistentMemoryHashMap decN ⟨false, []⟩
      ⟨false, false, false⟩).1.is_persistence_available = false ∧
    (PersistentMemoryHashMap.AddUpdateObject encN
        (CreatePersistentMemoryHashMap decN ⟨false, []⟩
          ⟨false, false, false⟩).1 ⟨false, []⟩ ⟨false, false, false⟩ "a"
        (some 3)).1.FindByKey "a" = some 3 :=
  C6_constructor_memory_only decN encN ⟨false, []⟩ ⟨false, false, false⟩
    ⟨false, false, false⟩ "a" (some 3) rfl

/-- Claim C7: after `AddUpdateObject key value`, `FindByKey key` returns
`value`; `Count` grows by one when the key was absent and is unchanged
when it was present (the existing record is replaced in place, no
duplicate key is created).  The persistent variant applies exactly the
same in-memory upsert, so the same facts hold for it. -/
theorem C7_addupdate_find_count {Obj : Type}
    (enc : Option Obj → Option Bytes) (mhm : MemoryHashMap Obj)
    (pmhm : PersistentMemoryHashMap Obj) (bs : BackendState) (f : Faults)
    (key : String) (value : Option Obj) :
    (mhm.AddUpdateObject key value).FindByKey key = value ∧
    (GoMap.find mhm.list key = none →
      (mhm.AddUpdateObject key value).Count = mhm.Count + 1) ∧
    (GoMap.find mhm.list key ≠ none →
      (mhm.AddUpdateObject key value).Count = mhm.Count) ∧
    (PersistentMemoryHashMap.AddUpdateObject enc pmhm bs f key
      value).1.memory_map = pmhm.memory_map.AddUpdateObject key value := by
  refine ⟨?_, ?_, ?_, ?_⟩
  · rw [MemoryHashMap.AddUpdateObject, MemoryHashMap.FindByKey]
    simp [GoMap.find_insert_self]
  · intro habs
    rw [MemoryHashMap.AddUpdateObject, MemoryHashMap.Count,
      MemoryHashMap.Count]
    exact GoMap.length_insert_of_absent value habs
  · intro hpres
    rw [MemoryHashMap.AddUpdateObject, MemoryHashMap.Count,
      MemoryHashMap.Count]
    exact GoMap.length_insert_of_present value hpres
  · exact PersistentMemoryHashMap.addUpdate_memory_map enc pmhm bs f key
      value

/-- Witness for C7: fresh insert then overwrite of the same key. -/
theorem C7_addupdate_find_count_witness :
    ((⟨[]⟩ : MemoryHashMap Nat).AddUpdateObject "a" (some 2)).FindByKey "a"
      = some 2 ∧
    ((⟨[]⟩ : MemoryHashMap Nat).AddUpdateObject "a" (some 2)).Count
      = (⟨[]⟩ : MemoryHashMap Nat).Count + 1 ∧
    ((⟨[("a", some 2)]⟩ : MemoryHashMap Nat).AddUpdateObject "a"
      (some 3)).Count = (⟨[("a", some 2)]⟩ : MemoryHashMap Nat).Count := by
  refine ⟨?_, ?_, ?_⟩
  · exact (C7_addupdate_find_count encN ⟨[]⟩ ⟨⟨[]⟩, true⟩ ⟨true, []⟩
      ⟨false, false, false⟩ "a" (some 2)).1
  · exact (C7_addupdate_find_count encN ⟨[]⟩ ⟨⟨[]⟩, true⟩ ⟨true, []⟩
      ⟨false, false, false⟩ "a" (some 2)).2.1 rfl
  · exact (C7_addupdate_find_count encN ⟨[("a", some 2)]⟩ ⟨⟨[]⟩, true⟩
      ⟨true, []⟩ ⟨false, false, false⟩ "a" (some 3)).2.2.1 (by decide)

/-- Claim C8: after `DeleteObject key` the key is absent
(`FindByKey` returns `nil` and the underlying map has no entry); when
the key was not present the call is a no-op that leaves the map, and
hence `Count`, unchanged (and the Go method returns nothing, so no error
is possible).  The persistent variant applies exactly the same in-memory
removal. -/
theorem C8_delete_absent_noop {Obj : Type} (mhm : MemoryHashMap Obj)
    (pmhm : PersistentMemoryHashMap Obj) (bs : BackendState) (f : Faults)
    (key : String) :
    (mhm.DeleteObject key).FindByKey key = none ∧
    GoMap.find (mhm.DeleteObject key).list key = none ∧
    (GoMap.find mhm.list key = none →
      mhm.DeleteObject key = mhm ∧
      (mhm.DeleteObject key).Count = mhm.Count) ∧
    (PersistentMemoryHashMap.DeleteObject pmhm bs f key).1.memory_map
      = pmhm.memory_map.DeleteObject key := by
  refine ⟨?_, ?_, ?_, ?_⟩
  · rw [MemoryHashMap.DeleteObject, MemoryHashMap.FindByKey]
    simp [GoMap.find_erase_self]
  · rw [MemoryHashMap.DeleteObject]
    exact GoMap.find_erase_self mhm.list key
  · intro habs
    have : mhm.DeleteObject key = mhm := by
      rw [MemoryHashMap.DeleteObject, GoMap.erase_of_absent habs]
    exact ⟨this, by rw [this]⟩
  · exact PersistentMemoryHashMap.delete_memory_map pmhm bs f key

/-- Witness for C8: delete a present key, then delete an absent one. -/
theorem C8_delete_absent_noop_witness :
    ((⟨[("a", some 1)]⟩ : MemoryHashMap Nat).DeleteObject "a").FindByKey
      "a" = none ∧
    (⟨[("a", some 1)]⟩ : MemoryHashMap Nat).DeleteObject "b"
      = ⟨[("a", some 1)]⟩ ∧
    ((⟨[("a", some 1)]⟩ : MemoryHashMap Nat).DeleteObject "b").Count
      = (⟨[("a", some 1)]⟩ : MemoryHashMap Nat).Count := by
  refine ⟨?_, ?_, ?_⟩
  · exact (C8_delete_absent_noop ⟨[("a", some 1)]⟩ ⟨⟨[]⟩, true⟩ ⟨true, []⟩
      ⟨false, false, false⟩ "a").1
  · exact ((C8_delete_absent_noop ⟨[("a", some 1)]⟩ ⟨⟨[]⟩, true⟩
      ⟨true, []⟩ ⟨false, false, false⟩ "b").2.2.1 (by decide)).1
  · exact ((C8_delete_absent_noop ⟨[("a", some 1)]⟩ ⟨⟨[]⟩, true⟩
      ⟨true, []⟩ ⟨false, false, false⟩ "b").2.2.1 (by decide)).2

/-- Claim C10: a stored `nil` value is indistinguishable from an absent
key through `FindByKey`: after `AddUpdateObject key nil` the lookup
returns `nil`, exactly what it returns for a key never added; yet the
`nil` record occupies an entry, so it still contributes to `Count`. -/
theorem C10_nil_value_indistinguishable {Obj : Type}
    (mhm : MemoryHashMap Obj) (key other : String) :
    (mhm.AddUpdateObject key none).FindByKey key = none ∧
    (GoMap.find mhm.list other = none → mhm.FindByKey other = none) ∧
    (GoMap.find mhm.list key = none →
      (mhm.AddUpdateObject key none).Count = mhm.Count + 1) := by
  refine ⟨?_, ?_, ?_⟩
  · rw [MemoryHashMap.AddUpdateObject, MemoryHashMap.FindByKey]
    simp [GoMap.find_insert_self]
  · intro habs
    rw [MemoryHashMap.FindByKey, habs]
  · intro habs
    rw [MemoryHashMap.AddUpdateObject, MemoryHashMap.Count,
      MemoryHashMap.Count]
    exact GoMap.length_insert_of_absent none habs

/-- Witness for C10: a `nil` record under `"a"` and the never-added key
`"b"` give the same `FindByKey` answer, while `Count` sees the record. -/
theorem C10_nil_value_indistinguishable_witness :
    ((⟨[]⟩ : MemoryHashMap Nat).AddUpdateObject "a" none).FindByKey "a"
      = none ∧
    (⟨[("a", none)]⟩ : MemoryHashMap Nat).FindByKey "b" = none ∧
    ((⟨[]⟩ : MemoryHashMap Nat).AddUpdateObject "a" none).Count
      = (⟨[]⟩ : MemoryHashMap Nat).Count + 1 := by
  refine ⟨?_, ?_, ?_⟩
  · exact (C10_nil_value_indistinguishable ⟨[]⟩ "a" "b").1
  · exact (C10_nil_value_indistinguishable ⟨[("a", none)]⟩ "a" "b").2.1
      (by decide)
  · exact (C10_nil_value_indistinguishable ⟨[]⟩ "a" "b").2.2 rfl

theorem mirrors_step {Obj : Type} (enc : Option Obj → Option Bytes)
    (s : PersistentMemoryHashMap Obj × BackendState) (op : Op Obj)
    (hInv : s.1.is_persistence_available = true →
      mirrors enc s.2.store s.1.memory_map)
    (hop : encOk enc op) :
    (applyOp enc s op).1.is_persistence_available = true →
      mirrors enc (applyOp enc s op).2.store
        (applyOp enc s op).1.memory_map := by
  by_cases havail : s.1.is_persistence_available = true
  case neg =>
    have hfalse : s.1.is_persistence_available = false := by
      cases h : s.1.is_persistence_available
      · rfl
      · exact absurd h havail
    rw [applyOp_avail_false enc s op hfalse]
    intro h
    exact absurd h (by simp)
  case pos =>
    have hm := hInv havail
    cases op with
    | add f key value =>
      obtain ⟨b, hb⟩ := Option.isSome_iff_exists.mp hop
      rcases Decidable.em (s.2.dirExists = false ∨ f.openFail = true ∨
          f.bucketFail = true ∨
          (f.opFail = true ∧ (enc value).isSome = true)) with hfail | hok
      · have hres : applyOp enc s (Op.add f key value)
            = (⟨s.1.memory_map.AddUpdateObject key value, false⟩, s.2) :=
          addUpdate_backend_failure enc key value havail hfail
        rw [hres]
        intro h
        exact absurd h (by simp)
      · push_neg at hok
        have hd : s.2.dirExists = true := by
          cases h : s.2.dirExists
          · exact absurd h hok.1
          · rfl
        have ho : f.openFail = false := by
          cases h : f.openFail
          · rfl
          · exact absurd h hok.2.1
        have hbx : f.bucketFail = false := by
          cases h : f.bucketFail
          · rfl
          · exact absurd h hok.2.2.1
        have hp : f.opFail = false := by
          cases h : f.opFail
          · rfl
          · exact absurd hop (hok.2.2.2 h)
        have hres : applyOp enc s (Op.add f key value)
            = (⟨s.1.memory_map.AddUpdateObject key value,
                s.1.is_persistence_available⟩,
               ⟨s.2.dirExists, GoMap.insert s.2.store key b⟩) := by
          simp [applyOp, PersistentMemoryHashMap.AddUpdateObject, havail,
            hd, ho, hbx, hb, hp]
        rw [hres]
        intro _
        intro key'
        by_cases hk : key' = key
        · subst hk
          simp only [MemoryHashMap.AddUpdateObject]
          rw [GoMap.find_insert_self]
          exact ⟨b, hb, GoMap.find_insert_self s.2.store key' b⟩
        · simp only [MemoryHashMap.AddUpdateObject]
          rw [GoMap.find_insert_ne s.1.memory_map.list value hk]
          rw [GoMap.find_insert_ne s.2.store b hk]
          exact hm key'
    | del f key =>
      rcases Decidable.em (s.2.dirExists = false ∨ f.openFail = true ∨
          f.bucketFail = true ∨ f.opFail = true) with hfail | hok
      · have hres : applyOp enc s (Op.del f key)
            = (⟨s.1.memory_map.DeleteObject key, false⟩, s.2) :=
          delete_backend_failure key havail hfail
        rw [hres]
        intro h
        exact absurd h (by simp)
      · push_neg at hok
        have hd : s.2.dirExists = true := by
          cases h : s.2.dirExists
          · exact absurd h hok.1
          · rfl
        have ho : f.openFail = false := by
          cases h : f.openFail
          · rfl
          · exact absurd h hok.2.1
        have hbx : f.bucketFail = false := by
          cases h : f.bucketFail
          · rfl
          · exact absurd h hok.2.2.1
        have hp : f.opFail = false := by
          cases h : f.opFail
          · rfl
          · exact absurd h hok.2.2.2
        have hres : applyOp enc s (Op.del f key)
            = (⟨s.1.memory_map.DeleteObject key,
                s.1.is_persistence_available⟩,
               ⟨s.2.dirExists, GoMap.erase s.2.store key⟩) := by
          simp [applyOp, PersistentMemoryHashMap.DeleteObject, havail,
            hd, ho, hbx, hp]
        rw [hres]
        intro _
        intro key'
        by_cases hk : key' = key
        · subst hk
          simp only [MemoryHashMap.DeleteObject]
          rw [GoMap.find_erase_self]
          exact GoMap.find_erase_self s.2.store key'
        · simp only [MemoryHashMap.DeleteObject]
          rw [GoMap.find_erase_ne s.1.memory_map.list hk]
          rw [GoMap.find_erase_ne s.2.store hk]
          exact hm key'

/-- Claim C4 fails on the code at a concrete input: from a state with
persistence available and a perfectly mirrored (empty) backend, one
`AddUpdateObject` of a value whose encoding fails (`encN (some 0) =
none`) leaves the backend lagging behind the container (the key is in
memory but not in the bucket) while `is_persistence_available` is still
`true` — the claim says such a mutation simultaneously sets the latch
`false`. -/
theorem C4_writethrough_counterexample :
    mirrors encN (⟨true, []⟩ : BackendState).store
      (⟨⟨[]⟩, true⟩ : PersistentMemoryHashMap Nat).memory_map ∧
    (PersistentMemoryHashMap.AddUpdateObject encN ⟨⟨[]⟩, true⟩ ⟨true, []⟩
      ⟨false, false, false⟩ "a"
      (some 0)).1.is_persistence_available = true ∧
    ¬ mirrors encN
      (PersistentMemoryHashMap.AddUpdateObject encN ⟨⟨[]⟩, true⟩
        ⟨true, []⟩ ⟨false, false, false⟩ "a" (some 0)).2.store
      (PersistentMemoryHashMap.AddUpdateObject encN ⟨⟨[]⟩, true⟩
        ⟨true, []⟩ ⟨false, false, false⟩ "a" (some 0)).1.memory_map := by
  refine ⟨?_, rfl, ?_⟩
  · intro key
    simp [mirrors, GoMap.find]
  · intro h
    have ha := h "a"
    have hlist : (PersistentMemoryHashMap.AddUpdateObject encN ⟨⟨[]⟩, true⟩
        ⟨true, []⟩ ⟨false, false, false⟩ "a"
        (some 0)).1.memory_map.list = [("a", some 0)] := rfl
    have hstore : (PersistentMemoryHashMap.AddUpdateObject encN
        ⟨⟨[]⟩, true⟩ ⟨true, []⟩ ⟨false, false, false⟩ "a"
        (some 0)).2.store = [] := rfl
    rw [hlist, hstore] at ha
    simp only [GoMap.find, if_pos rfl] at ha
    obtain ⟨b, hb, _⟩ := ha
    simp [encN] at hb

/-- Claim C4, amended: starting from a state whose backend mirrors the
container whenever persistence is available, and running any sequence of
mutations in which every added value encodes successfully, the invariant
is preserved: whenever `is_persistence_available` is still `true` at the
end, the backend bucket contains exactly the key/encoded-value pairs of
the in-memory container; any such mutation that would leave the backend
lagging sets the latch `false` in the same call.  (The amendment is
forced by the counterexample: a mutation whose value fails to encode
leaves the backend lagging while the latch stays `true`.) -/
theorem C4_mirror_amended {Obj : Type} (enc : Option Obj → Option Bytes)
    (pmhm : PersistentMemoryHashMap Obj) (bs : BackendState)
    (ops : List (Op Obj))
    (hInv : pmhm.is_persistence_available = true →
      mirrors enc bs.store pmhm.memory_map)
    (hops : ∀ op ∈ ops, encOk enc op)
    (havail : (applyOps enc (pmhm, bs)
      ops).1.is_persistence_available = true) :
    mirrors enc (applyOps enc (pmhm, bs) ops).2.store
      (applyOps enc (pmhm, bs) ops).1.memory_map := by
  induction ops generalizing pmhm bs with
  | nil => exact hInv havail
  | cons op rest ih =>
    have hstep := mirrors_step enc (pmhm, bs) op hInv
      (hops op (by simp))
    have hrest : ∀ o ∈ rest, encOk enc o := fun o ho =>
      hops o (by simp [ho])
    simp only [applyOps, List.foldl_cons] at havail ⊢
    exact ih (applyOp enc (pmhm, bs) op).1 (applyOp enc (pmhm, bs) op).2
      hstep hrest havail

/-- Witness for the amended C4: one successfully encoded insert from a
fresh mirrored state keeps the latch and the mirror. -/
theorem C4_mirror_amended_witness :
    (applyOps encN (⟨⟨[]⟩, true⟩, ⟨true, []⟩)
      [Op.add ⟨false, false, false⟩ "a"
        (some 1)]).1.is_persistence_available = true ∧
    mirrors encN
      (applyOps encN (⟨⟨[]⟩, true⟩, ⟨true, []⟩)
        [Op.add ⟨false, false, false⟩ "a" (some 1)]).2.store
      (applyOps encN (⟨⟨[]⟩, true⟩, ⟨true, []⟩)
        [Op.add ⟨false, false, false⟩ "a" (some 1)]).1.memory_map := by
  refine ⟨rfl, ?_⟩
  exact C4_mirror_amended encN ⟨⟨[]⟩, true⟩ ⟨true, []⟩
    [Op.add ⟨false, false, false⟩ "a" (some 1)]
    (fun _ key => by simp [mirrors, GoMap.find])
    (fun o ho => by
      rw [List.mem_singleton] at ho
      subst ho
      exact rfl)
    rfl
